import Mathlib

/-!
Shallow embedding of `torchgeometry/feature/harris.py` (Harris corner
detection pipeline) over exact rational arithmetic.

A 4D tensor `(B, C, H, W)` is a shape together with a total data function;
only indices below the shape bounds are observable.  The PyTorch primitives
used by the source are embedded with their real semantics:

* `nn.MaxPool2d(kernel, stride=1, padding=p)`: sliding-window maximum where
  padded (out-of-bounds) cells are ignored — the THNN kernel clamps the
  window to the valid input range and starts its accumulator at -infinity,
  so padding never contributes a value.
* `torch.where(x == x_max, 1, 0) * x`: elementwise mask; the comparison
  requires `x` and `x_max` to have the same shape, which holds exactly when
  the pooling window has odd dimensions.
* `torch.clamp(v, min=m) = max v m`, and
  `F.adaptive_max_pool2d(s, 1)` is the global maximum of each `[b, c]` slice.

`spatial_gradient` and `gaussian_blur` are imported by the source from
`torchgeometry.image`, which is not part of the packaged sources; they are
modelled from the spec (section 6) as fixed same-size 3x3 convolutions.
-/

/-- A 4-dimensional tensor indexed `[batch, channel, row, column]` holding
exact rationals.  `data` is total; indices at or beyond the bounds are
unobservable padding. -/
structure Tensor4 where
  B : ℕ
  C : ℕ
  H : ℕ
  W : ℕ
  data : ℕ → ℕ → ℕ → ℕ → ℚ

/-- Value of `x` at integer coordinates, zero outside the spatial bounds
(zero padding as used by the convolution collaborators). -/
def padVal (x : Tensor4) (b c : ℕ) (i j : ℤ) : ℚ :=
  if 0 ≤ i ∧ i < (x.H : ℤ) ∧ 0 ≤ j ∧ j < (x.W : ℤ) then
    x.data b c i.toNat j.toNat
  else 0

/-- Maximum of a list of rationals; `0` for the empty list (never used on an
empty list by the pooling semantics, since a pooling window always contains
at least one valid cell). -/
def listMax : List ℚ → ℚ
  | [] => 0
  | [a] => a
  | a :: b :: t => max a (listMax (b :: t))

/-- All spatial index pairs `(r, s)` with `r < H`, `s < W`. -/
def spatialIdx (H W : ℕ) : List (ℕ × ℕ) :=
  (List.range H).flatMap fun r => (List.range W).map fun s => (r, s)

/-- In-bounds cells of the pooling window whose top-left corner is at the
integer coordinates `(i0, j0)` and whose extent is `ky x kx`.  Out-of-bounds
(padding) positions are dropped, matching the max-pooling kernel which
clamps the window to the valid range. -/
def windowIdx (H W : ℕ) (i0 j0 : ℤ) (ky kx : ℕ) : List (ℕ × ℕ) :=
  (spatialIdx H W).filter fun p =>
    decide (i0 ≤ (p.1 : ℤ) ∧ (p.1 : ℤ) < i0 + ky ∧
      j0 ≤ (p.2 : ℤ) ∧ (p.2 : ℤ) < j0 + kx)

/-- The maximum of the in-bounds window cells of `x` in channel `(b, c)`. -/
def windowMax (x : Tensor4) (b c : ℕ) (i0 j0 : ℤ) (ky kx : ℕ) : ℚ :=
  listMax ((windowIdx x.H x.W i0 j0 ky kx).map fun p => x.data b c p.1 p.2)

/-- Global maximum of the `[b, c]` spatial slice
(`F.adaptive_max_pool2d(-, output_size=1)`). -/
def sliceMax (x : Tensor4) (b c : ℕ) : ℚ :=
  listMax ((spatialIdx x.H x.W).map fun p => x.data b c p.1 p.2)

/-- `nn.MaxPool2d((ky, kx), stride=1, padding=(py, px))`: output extent
`H + 2*py - ky + 1` per axis, each output cell the maximum of the in-bounds
cells of its window. -/
def maxPool2d (ky kx py px : ℕ) (x : Tensor4) : Tensor4 :=
  { B := x.B, C := x.C, H := x.H + 2 * py + 1 - ky, W := x.W + 2 * px + 1 - kx,
    data := fun b c i j => windowMax x b c ((i : ℤ) - py) ((j : ℤ) - px) ky kx }

/-- `NonMaximaSuppression2d.forward`: mask keeping exactly the cells equal
to their local window maximum (`torch.where(x == x_max, 1, 0) * x`).  The
padding is `(size - 1) // 2` per axis, as computed by
`_compute_zero_padding2d`.  The elementwise comparison `x == x_max` demands
that `x_max` has the same shape as `x`, which holds for odd window sizes. -/
def NonMaximaSuppression2d_forward (ky kx : ℕ) (x : Tensor4) : Tensor4 :=
  { B := x.B, C := x.C, H := x.H, W := x.W,
    data := fun b c i j =>
      if x.data b c i j = (maxPool2d ky kx ((ky - 1) / 2) ((kx - 1) / 2) x).data b c i j then
        x.data b c i j
      else 0 }

/-- Functional entry point `non_maxima_suppression2d(input, kernel_size)`. -/
def non_maxima_suppression2d (input : Tensor4) (kernel_size : ℕ × ℕ) : Tensor4 :=
  NonMaximaSuppression2d_forward kernel_size.1 kernel_size.2 input

/-- Pointwise product of two same-shape tensors (`x * y`). -/
def tmul (x y : Tensor4) : Tensor4 :=
  { x with data := fun b c i j => x.data b c i j * y.data b c i j }

/-- Pointwise sum of two same-shape tensors (`x + y`). -/
def tadd (x y : Tensor4) : Tensor4 :=
  { x with data := fun b c i j => x.data b c i j + y.data b c i j }

/-- Pointwise difference of two same-shape tensors (`x - y`). -/
def tsub (x y : Tensor4) : Tensor4 :=
  { x with data := fun b c i j => x.data b c i j - y.data b c i j }

/-- Scalar multiple of a tensor (`k * y`). -/
def tsmul (k : ℚ) (y : Tensor4) : Tensor4 :=
  { y with data := fun b c i j => k * y.data b c i j }

/-- Same-size 3x3 cross-correlation with zero padding 1, applied to every
`[b, c]` channel independently; output extent `H + 2*1 - 3 + 1` per axis. -/
def conv3x3 (ker : ℤ → ℤ → ℚ) (x : Tensor4) : Tensor4 :=
  { B := x.B, C := x.C, H := x.H + 2 * 1 + 1 - 3, W := x.W + 2 * 1 + 1 - 3,
    data := fun b c i j =>
      (((List.range 3).flatMap fun di => (List.range 3).map fun dj =>
        ker ((di : ℤ) - 1) ((dj : ℤ) - 1) *
          padVal x b c ((i : ℤ) + di - 1) ((j : ℤ) + dj - 1)).sum) }

/-- Horizontal Sobel kernel entry at offset `(di, dj)` from the center. -/
def sobelKernelX (di dj : ℤ) : ℚ :=
  (if di = 0 then 2 else if di = -1 ∨ di = 1 then 1 else 0) *
    (if dj = -1 then -1 else if dj = 1 then 1 else 0)

/-- Vertical Sobel kernel entry: the transpose of the horizontal kernel. -/
def sobelKernelY (di dj : ℤ) : ℚ :=
  sobelKernelX dj di

/-- Modelled from the spec: `spatial_gradient` (from `torchgeometry.image`,
not in the packaged sources) is a fixed 3x3 derivative-operator convolution
per channel with same-size output; this is its horizontal component `dx`. -/
def spatial_gradient_x (x : Tensor4) : Tensor4 :=
  conv3x3 sobelKernelX x

/-- Modelled from the spec: the vertical component `dy` of
`spatial_gradient`. -/
def spatial_gradient_y (x : Tensor4) : Tensor4 :=
  conv3x3 sobelKernelY x

/-- Modelled from the spec: `gaussian_blur(-, (3, 3), (1., 1.))` (from
`torchgeometry.image`, not in the packaged sources) is a separable same-size
3x3 Gaussian smoothing.  The separable one-dimensional window `w` (the
discrete Gaussian with sigma 1.0, whose exact weights are irrational and
thus kept as a parameter) induces the product kernel `w di * w dj`. -/
def gaussian_blur (w : ℤ → ℚ) (x : Tensor4) : Tensor4 :=
  conv3x3 (fun di dj => w di * w dj) x

/-- The raw Harris response of `CornerHarris.forward` before thresholding:
`det_m - k * trace_m ** 2` where `det_m = dx2 * dy2 - dxy * dxy` and
`trace_m = dx2 + dy2`, with `dx2, dy2, dxy` the blurred gradient products. -/
def harrisRawScores (w : ℤ → ℚ) (k : ℚ) (x : Tensor4) : Tensor4 :=
  let dx := spatial_gradient_x x
  let dy := spatial_gradient_y x
  let dx2 := gaussian_blur w (tmul dx dx)
  let dy2 := gaussian_blur w (tmul dy dy)
  let dxy := gaussian_blur w (tmul dx dy)
  let det_m := tsub (tmul dx2 dy2) (tmul dxy dxy)
  let trace_m := tadd dx2 dy2
  tsub det_m (tsmul k (tmul trace_m trace_m))

/-- `torch.clamp(x, min=m)` pointwise. -/
def clampMin (m : ℚ) (x : Tensor4) : Tensor4 :=
  { x with data := fun b c i j => max (x.data b c i j) m }

/-- The thresholded scores: `torch.clamp(scores, min=1e-6)`. -/
def clampedScores (w : ℤ → ℚ) (k : ℚ) (x : Tensor4) : Tensor4 :=
  clampMin (1 / 1000000) (harrisRawScores w k x)

/-- The suppressed scores: `NonMaximaSuppression2d(kernel_size=(3, 3))`
applied to the clamped scores. -/
def harrisSuppressed (w : ℤ → ℚ) (k : ℚ) (x : Tensor4) : Tensor4 :=
  NonMaximaSuppression2d_forward 3 3 (clampedScores w k x)

/-- `CornerHarris.forward` on an already-validated 4D tensor: suppressed
scores divided by the global maximum of their own `[b, c]` slice
(`scores / F.adaptive_max_pool2d(scores, output_size=1)`). -/
def CornerHarris_forward (w : ℤ → ℚ) (k : ℚ) (x : Tensor4) : Tensor4 :=
  let s := harrisSuppressed w k x
  { B := s.B, C := s.C, H := s.H, W := s.W,
    data := fun b c i j => s.data b c i j / sliceMax s b c }

/-- Functional entry point `corner_harris(input, k)`. -/
def corner_harris (w : ℤ → ℚ) (input : Tensor4) (k : ℚ) : Tensor4 :=
  CornerHarris_forward w k input

/-- A Python-level argument to `CornerHarris.forward`: either a tensor of
some shape (with its payload, meaningful when the shape has rank 4), or a
value that is not a tensor at all. -/
inductive PyInput where
  | tensor (shape : List ℕ) (d : ℕ → ℕ → ℕ → ℕ → ℚ)
  | nonTensor

/-- The error taxonomy of the scorer: `invalidType` is the `TypeError`
raised for non-tensor input, `invalidShape` the `ValueError` raised for
rank different from 4. -/
inductive HarrisError where
  | invalidType
  | invalidShape
deriving DecidableEq

/-- `CornerHarris.forward` with its validation prologue: the tensor check
and the rank-4 shape check run before any numeric work. -/
def CornerHarris_forward_checked (w : ℤ → ℚ) (k : ℚ) (v : PyInput) :
    Except HarrisError Tensor4 :=
  match v with
  | .nonTensor => .error .invalidType
  | .tensor shape d =>
    match shape with
    | [b, c, h, wd] => .ok (CornerHarris_forward w k ⟨b, c, h, wd, d⟩)
    | _ => .error .invalidShape

/-- A Python-level `kernel_size` argument: a tuple of integers of any
length, or a non-tuple value. -/
inductive PyKernelArg where
  | tuple (l : List ℤ)
  | notATuple

/-- Failure of a Python `assert` statement. -/
inductive PyAssertError where
  | assertionFailed
deriving DecidableEq

/-- `NonMaximaSuppression2d._compute_zero_padding2d`: asserts that the
argument is a tuple of length 2, then returns `((ky - 1) // 2, (kx - 1) // 2)`
with Python floor division. -/
def compute_zero_padding2d_checked (ks : PyKernelArg) :
    Except PyAssertError (ℤ × ℤ) :=
  match ks with
  | .notATuple => .error .assertionFailed
  | .tuple [ky, kx] => .ok (Int.fdiv (ky - 1) 2, Int.fdiv (kx - 1) 2)
  | .tuple _ => .error .assertionFailed

/-- The standalone entry point `non_maxima_suppression2d` with its
assertions: constructing `NonMaximaSuppression2d` runs the kernel-size
assertions, then `forward` asserts `len(x.shape) == 4` before computing.
(The kernel entries are nonnegative in every non-crashing use, so their
`toNat` image is faithful.) -/
def non_maxima_suppression2d_checked (ks : PyKernelArg) (shape : List ℕ)
    (d : ℕ → ℕ → ℕ → ℕ → ℚ) : Except PyAssertError Tensor4 :=
  match ks with
  | .notATuple => .error .assertionFailed
  | .tuple [ky, kx] =>
    match shape with
    | [b, c, h, w] =>
      .ok (NonMaximaSuppression2d_forward ky.toNat kx.toNat ⟨b, c, h, w, d⟩)
    | _ => .error .assertionFailed
  | .tuple _ => .error .assertionFailed

/-- Observable equality of two tensors: same shape and same data at every
in-bounds index. -/
def EqOn4 (x y : Tensor4) : Prop :=
  x.B = y.B ∧ x.C = y.C ∧ x.H = y.H ∧ x.W = y.W ∧
    ∀ b < x.B, ∀ c < x.C, ∀ i < x.H, ∀ j < x.W, x.data b c i j = y.data b c i j

instance (x y : Tensor4) : Decidable (EqOn4 x y) := by
  unfold EqOn4
  infer_instance

/-- A 1x1x1x1 tensor holding `-1`: a negative boundary pixel. -/
def negT : Tensor4 :=
  ⟨1, 1, 1, 1, fun _ _ _ _ => -1⟩

/-- A 1x1x1x2 tensor holding `[-5, -3]`. -/
def negPair : Tensor4 :=
  ⟨1, 1, 1, 2, fun _ _ _ j => if j = 0 then -5 else -3⟩

/-- A 1x1x1x2 constant tensor holding `2`: a flat maximal plateau. -/
def plateau2 : Tensor4 :=
  ⟨1, 1, 1, 2, fun _ _ _ _ => 2⟩

/-- A 1x1x2x2 tensor with distinct positive values. -/
def posQuad : Tensor4 :=
  ⟨1, 1, 2, 2, fun _ _ i j =>
    if i = 0 then (if j = 0 then 1 else 2) else (if j = 0 then 3 else 4)⟩

/-- A 1x1x1x1 all-zero image. -/
def zeroT : Tensor4 :=
  ⟨1, 1, 1, 1, fun _ _ _ _ => 0⟩

/-- A 2x3x4x5 all-zero image, used to exercise shape preservation. -/
def shapeT : Tensor4 :=
  ⟨2, 3, 4, 5, fun _ _ _ _ => 0⟩

/-- A sample separable blur window with positive weights. -/
def wConst : ℤ → ℚ :=
  fun _ => 1 / 4

theorem listMax_cons_ne (a : ℚ) (t : List ℚ) (ht : t ≠ []) :
    listMax (a :: t) = max a (listMax t) := by
  cases t with
  | nil => exact absurd rfl ht
  | cons b u => rfl

theorem listMax_mem : ∀ (l : List ℚ), l ≠ [] → listMax l ∈ l := by
  intro l
  induction l with
  | nil => intro h; exact absurd rfl h
  | cons a t ih =>
    intro _
    cases t with
    | nil => simp [listMax]
    | cons b u =>
      rw [listMax_cons_ne a (b :: u) (by simp)]
      rcases max_choice a (listMax (b :: u)) with h | h
      · rw [h]; exact List.mem_cons_self a (b :: u)
      · rw [h]; exact List.mem_cons_of_mem a (ih (by simp))

theorem le_listMax : ∀ (l : List ℚ) (v : ℚ), v ∈ l → v ≤ listMax l := by
  intro l
  induction l with
  | nil => intro v hv; cases hv
  | cons a t ih =>
    intro v hv
    rcases List.mem_cons.mp hv with h | h
    · subst h
      cases t with
      | nil => exact le_of_eq rfl
      | cons b u => rw [listMax_cons_ne v (b :: u) (by simp)]; exact le_max_left _ _
    · have ht : t ≠ [] := List.ne_nil_of_mem h
      rw [listMax_cons_ne a t ht]
      exact le_trans (ih v h) (le_max_right _ _)

theorem listMax_le (l : List ℚ) (m : ℚ) (hne : l ≠ [])
    (hub : ∀ v ∈ l, v ≤ m) : listMax l ≤ m :=
  hub _ (listMax_mem l hne)

theorem mem_spatialIdx {H W : ℕ} {p : ℕ × ℕ} :
    p ∈ spatialIdx H W ↔ p.1 < H ∧ p.2 < W := by
  obtain ⟨r, s⟩ := p
  simp [spatialIdx]

theorem mem_windowIdx {H W : ℕ} {i0 j0 : ℤ} {ky kx : ℕ} {p : ℕ × ℕ} :
    p ∈ windowIdx H W i0 j0 ky kx ↔
      p.1 < H ∧ p.2 < W ∧ i0 ≤ (p.1 : ℤ) ∧ (p.1 : ℤ) < i0 + ky ∧
        j0 ≤ (p.2 : ℤ) ∧ (p.2 : ℤ) < j0 + kx := by
  unfold windowIdx
  rw [List.mem_filter]
  simp [mem_spatialIdx, and_assoc]

theorem self_mem_windowIdx {H W ky kx i j : ℕ} (hky : ky % 2 = 1)
    (hkx : kx % 2 = 1) (hi : i < H) (hj : j < W) :
    ((i, j) : ℕ × ℕ) ∈
      windowIdx H W ((i : ℤ) - ((ky - 1) / 2 : ℕ)) ((j : ℤ) - ((kx - 1) / 2 : ℕ)) ky kx := by
  rw [mem_windowIdx]
  refine ⟨hi, hj, ?_, ?_, ?_, ?_⟩ <;> omega

theorem le_windowMax (x : Tensor4) (b c : ℕ) (i0 j0 : ℤ) (ky kx : ℕ)
    (p : ℕ × ℕ) (hp : p ∈ windowIdx x.H x.W i0 j0 ky kx) :
    x.data b c p.1 p.2 ≤ windowMax x b c i0 j0 ky kx :=
  le_listMax _ _ (List.mem_map.mpr ⟨p, hp, rfl⟩)

theorem windowMax_le (x : Tensor4) (b c : ℕ) (i0 j0 : ℤ) (ky kx : ℕ) (m : ℚ)
    (hne : windowIdx x.H x.W i0 j0 ky kx ≠ [])
    (hub : ∀ p ∈ windowIdx x.H x.W i0 j0 ky kx, x.data b c p.1 p.2 ≤ m) :
    windowMax x b c i0 j0 ky kx ≤ m := by
  refine listMax_le _ m (by simpa using hne) ?_
  intro v hv
  obtain ⟨p, hp, rfl⟩ := List.mem_map.mp hv
  exact hub p hp

theorem windowMax_mono (x y : Tensor4) (hH : y.H = x.H) (hW : y.W = x.W)
    (b c : ℕ) (i0 j0 : ℤ) (ky kx : ℕ)
    (hle : ∀ p ∈ windowIdx x.H x.W i0 j0 ky kx,
      y.data b c p.1 p.2 ≤ x.data b c p.1 p.2) :
    windowMax y b c i0 j0 ky kx ≤ windowMax x b c i0 j0 ky kx := by
  unfold windowMax
  rw [hH, hW]
  by_cases hne : windowIdx x.H x.W i0 j0 ky kx = []
  · rw [hne]; exact le_of_eq rfl
  · have hmem := listMax_mem ((windowIdx x.H x.W i0 j0 ky kx).map fun p => y.data b c p.1 p.2)
      (by simpa using hne)
    obtain ⟨p, hp, heq⟩ := List.mem_map.mp hmem
    rw [← heq]
    exact le_trans (hle p hp) (le_listMax _ _ (List.mem_map.mpr ⟨p, hp, rfl⟩))

theorem le_sliceMax (x : Tensor4) (b c i j : ℕ) (hi : i < x.H) (hj : j < x.W) :
    x.data b c i j ≤ sliceMax x b c :=
  le_listMax _ _ (List.mem_map.mpr ⟨(i, j), mem_spatialIdx.mpr ⟨hi, hj⟩, rfl⟩)

theorem sliceMax_attained (x : Tensor4) (b c : ℕ) (hH : 0 < x.H) (hW : 0 < x.W) :
    ∃ i j, i < x.H ∧ j < x.W ∧ sliceMax x b c = x.data b c i j := by
  have hne : ((spatialIdx x.H x.W).map fun p => x.data b c p.1 p.2) ≠ [] := by
    have : ((0, 0) : ℕ × ℕ) ∈ spatialIdx x.H x.W := mem_spatialIdx.mpr ⟨hH, hW⟩
    simp only [ne_eq, List.map_eq_nil_iff]
    exact fun h => by simp [h] at this
  have hmem := listMax_mem _ hne
  obtain ⟨p, hp, heq⟩ := List.mem_map.mp hmem
  obtain ⟨h1, h2⟩ := mem_spatialIdx.mp hp
  exact ⟨p.1, p.2, h1, h2, heq.symm⟩

theorem nms_data (ky kx : ℕ) (x : Tensor4) (b c i j : ℕ) :
    (NonMaximaSuppression2d_forward ky kx x).data b c i j =
      if x.data b c i j =
          windowMax x b c ((i : ℤ) - ((ky - 1) / 2 : ℕ)) ((j : ℤ) - ((kx - 1) / 2 : ℕ)) ky kx
      then x.data b c i j else 0 :=
  rfl

theorem conv3x3_B (ker : ℤ → ℤ → ℚ) (x : Tensor4) : (conv3x3 ker x).B = x.B := rfl

theorem conv3x3_C (ker : ℤ → ℤ → ℚ) (x : Tensor4) : (conv3x3 ker x).C = x.C := rfl

theorem conv3x3_H (ker : ℤ → ℤ → ℚ) (x : Tensor4) : (conv3x3 ker x).H = x.H := by
  show x.H + 2 * 1 + 1 - 3 = x.H
  omega

theorem conv3x3_W (ker : ℤ → ℤ → ℚ) (x : Tensor4) : (conv3x3 ker x).W = x.W := by
  show x.W + 2 * 1 + 1 - 3 = x.W
  omega

theorem tmul_B (x y : Tensor4) : (tmul x y).B = x.B := rfl

theorem tmul_C (x y : Tensor4) : (tmul x y).C = x.C := rfl

theorem tmul_H (x y : Tensor4) : (tmul x y).H = x.H := rfl

theorem tmul_W (x y : Tensor4) : (tmul x y).W = x.W := rfl

theorem tsub_B (x y : Tensor4) : (tsub x y).B = x.B := rfl

theorem tsub_C (x y : Tensor4) : (tsub x y).C = x.C := rfl

theorem tsub_H (x y : Tensor4) : (tsub x y).H = x.H := rfl

theorem tsub_W (x y : Tensor4) : (tsub x y).W = x.W := rfl

theorem tmul_data (x y : Tensor4) (b c i j : ℕ) :
    (tmul x y).data b c i j = x.data b c i j * y.data b c i j := rfl

theorem tadd_data (x y : Tensor4) (b c i j : ℕ) :
    (tadd x y).data b c i j = x.data b c i j + y.data b c i j := rfl

theorem tsub_data (x y : Tensor4) (b c i j : ℕ) :
    (tsub x y).data b c i j = x.data b c i j - y.data b c i j := rfl

theorem tsmul_data (k : ℚ) (y : Tensor4) (b c i j : ℕ) :
    (tsmul k y).data b c i j = k * y.data b c i j := rfl

theorem gaussian_blur_B (w : ℤ → ℚ) (x : Tensor4) : (gaussian_blur w x).B = x.B :=
  conv3x3_B _ x

theorem gaussian_blur_C (w : ℤ → ℚ) (x : Tensor4) : (gaussian_blur w x).C = x.C :=
  conv3x3_C _ x

theorem gaussian_blur_H (w : ℤ → ℚ) (x : Tensor4) : (gaussian_blur w x).H = x.H :=
  conv3x3_H _ x

theorem gaussian_blur_W (w : ℤ → ℚ) (x : Tensor4) : (gaussian_blur w x).W = x.W :=
  conv3x3_W _ x

theorem spatial_gradient_x_B (x : Tensor4) : (spatial_gradient_x x).B = x.B :=
  conv3x3_B _ x

theorem spatial_gradient_x_C (x : Tensor4) : (spatial_gradient_x x).C = x.C :=
  conv3x3_C _ x

theorem spatial_gradient_x_H (x : Tensor4) : (spatial_gradient_x x).H = x.H :=
  conv3x3_H _ x

theorem spatial_gradient_x_W (x : Tensor4) : (spatial_gradient_x x).W = x.W :=
  conv3x3_W _ x

theorem harrisRawScores_B (w : ℤ → ℚ) (k : ℚ) (x : Tensor4) :
    (harrisRawScores w k x).B = x.B := by
  simp only [harrisRawScores]
  rw [tsub_B, tsub_B, tmul_B, gaussian_blur_B, tmul_B, spatial_gradient_x_B]

theorem harrisRawScores_C (w : ℤ → ℚ) (k : ℚ) (x : Tensor4) :
    (harrisRawScores w k x).C = x.C := by
  simp only [harrisRawScores]
  rw [tsub_C, tsub_C, tmul_C, gaussian_blur_C, tmul_C, spatial_gradient_x_C]

theorem harrisRawScores_H (w : ℤ → ℚ) (k : ℚ) (x : Tensor4) :
    (harrisRawScores w k x).H = x.H := by
  simp only [harrisRawScores]
  rw [tsub_H, tsub_H, tmul_H, gaussian_blur_H, tmul_H, spatial_gradient_x_H]

theorem harrisRawScores_W (w : ℤ → ℚ) (k : ℚ) (x : Tensor4) :
    (harrisRawScores w k x).W = x.W := by
  simp only [harrisRawScores]
  rw [tsub_W, tsub_W, tmul_W, gaussian_blur_W, tmul_W, spatial_gradient_x_W]

theorem clampMin_B (m : ℚ) (x : Tensor4) : (clampMin m x).B = x.B := rfl

theorem clampMin_C (m : ℚ) (x : Tensor4) : (clampMin m x).C = x.C := rfl

theorem clampMin_H (m : ℚ) (x : Tensor4) : (clampMin m x).H = x.H := rfl

theorem clampMin_W (m : ℚ) (x : Tensor4) : (clampMin m x).W = x.W := rfl

theorem clampedScores_B (w : ℤ → ℚ) (k : ℚ) (x : Tensor4) :
    (clampedScores w k x).B = x.B := by
  show (clampMin (1 / 1000000) (harrisRawScores w k x)).B = x.B
  rw [clampMin_B, harrisRawScores_B]

theorem clampedScores_C (w : ℤ → ℚ) (k : ℚ) (x : Tensor4) :
    (clampedScores w k x).C = x.C := by
  show (clampMin (1 / 1000000) (harrisRawScores w k x)).C = x.C
  rw [clampMin_C, harrisRawScores_C]

theorem clampedScores_H (w : ℤ → ℚ) (k : ℚ) (x : Tensor4) :
    (clampedScores w k x).H = x.H := by
  show (clampMin (1 / 1000000) (harrisRawScores w k x)).H = x.H
  rw [clampMin_H, harrisRawScores_H]

theorem clampedScores_W (w : ℤ → ℚ) (k : ℚ) (x : Tensor4) :
    (clampedScores w k x).W = x.W := by
  show (clampMin (1 / 1000000) (harrisRawScores w k x)).W = x.W
  rw [clampMin_W, harrisRawScores_W]

theorem clampedScores_data (w : ℤ → ℚ) (k : ℚ) (x : Tensor4) (b c i j : ℕ) :
    (clampedScores w k x).data b c i j =
      max ((harrisRawScores w k x).data b c i j) (1 / 1000000) := rfl

theorem nms_B (ky kx : ℕ) (x : Tensor4) :
    (NonMaximaSuppression2d_forward ky kx x).B = x.B := rfl

theorem nms_C (ky kx : ℕ) (x : Tensor4) :
    (NonMaximaSuppression2d_forward ky kx x).C = x.C := rfl

theorem nms_H (ky kx : ℕ) (x : Tensor4) :
    (NonMaximaSuppression2d_forward ky kx x).H = x.H := rfl

theorem nms_W (ky kx : ℕ) (x : Tensor4) :
    (NonMaximaSuppression2d_forward ky kx x).W = x.W := rfl

theorem harrisSuppressed_B (w : ℤ → ℚ) (k : ℚ) (x : Tensor4) :
    (harrisSuppressed w k x).B = x.B := by
  show (NonMaximaSuppression2d_forward 3 3 (clampedScores w k x)).B = x.B
  rw [nms_B, clampedScores_B]

theorem harrisSuppressed_C (w : ℤ → ℚ) (k : ℚ) (x : Tensor4) :
    (harrisSuppressed w k x).C = x.C := by
  show (NonMaximaSuppression2d_forward 3 3 (clampedScores w k x)).C = x.C
  rw [nms_C, clampedScores_C]

theorem harrisSuppressed_H (w : ℤ → ℚ) (k : ℚ) (x : Tensor4) :
    (harrisSuppressed w k x).H = x.H := by
  show (NonMaximaSuppression2d_forward 3 3 (clampedScores w k x)).H = x.H
  rw [nms_H, clampedScores_H]

theorem harrisSuppressed_W (w : ℤ → ℚ) (k : ℚ) (x : Tensor4) :
    (harrisSuppressed w k x).W = x.W := by
  show (NonMaximaSuppression2d_forward 3 3 (clampedScores w k x)).W = x.W
  rw [nms_W, clampedScores_W]

theorem CornerHarris_forward_B (w : ℤ → ℚ) (k : ℚ) (x : Tensor4) :
    (CornerHarris_forward w k x).B = (harrisSuppressed w k x).B := rfl

theorem CornerHarris_forward_C (w : ℤ → ℚ) (k : ℚ) (x : Tensor4) :
    (CornerHarris_forward w k x).C = (harrisSuppressed w k x).C := rfl

theorem CornerHarris_forward_H (w : ℤ → ℚ) (k : ℚ) (x : Tensor4) :
    (CornerHarris_forward w k x).H = (harrisSuppressed w k x).H := rfl

theorem CornerHarris_forward_W (w : ℤ → ℚ) (k : ℚ) (x : Tensor4) :
    (CornerHarris_forward w k x).W = (harrisSuppressed w k x).W := rfl

theorem CornerHarris_forward_data (w : ℤ → ℚ) (k : ℚ) (x : Tensor4) (b c i j : ℕ) :
    (CornerHarris_forward w k x).data b c i j =
      (harrisSuppressed w k x).data b c i j / sliceMax (harrisSuppressed w k x) b c := rfl

theorem conv3x3_data_zero (ker : ℤ → ℤ → ℚ) (x : Tensor4)
    (hz : ∀ b c i j, x.data b c i j = 0) (b c i j : ℕ) :
    (conv3x3 ker x).data b c i j = 0 := by
  simp only [conv3x3]
  apply List.sum_eq_zero
  intro v hv
  simp only [List.mem_flatMap, List.mem_map, List.mem_range] at hv
  obtain ⟨di, _, dj, _, rfl⟩ := hv
  have hp : padVal x b c ((i : ℤ) + di - 1) ((j : ℤ) + dj - 1) = 0 := by
    unfold padVal
    split
    · exact hz _ _ _ _
    · rfl
  rw [hp, mul_zero]

theorem harrisRawScores_data_zeroT (w : ℤ → ℚ) (k : ℚ) (b c i j : ℕ) :
    (harrisRawScores w k zeroT).data b c i j = 0 := by
  have hz0 : ∀ b c i j, zeroT.data b c i j = 0 := fun _ _ _ _ => rfl
  have hdx : ∀ b c i j, (spatial_gradient_x zeroT).data b c i j = 0 := fun b c i j =>
    conv3x3_data_zero sobelKernelX zeroT hz0 b c i j
  have hdy : ∀ b c i j, (spatial_gradient_y zeroT).data b c i j = 0 := fun b c i j =>
    conv3x3_data_zero sobelKernelY zeroT hz0 b c i j
  have hxx : ∀ b c i j,
      (tmul (spatial_gradient_x zeroT) (spatial_gradient_x zeroT)).data b c i j = 0 := by
    intro b c i j
    rw [tmul_data, hdx, zero_mul]
  have hyy : ∀ b c i j,
      (tmul (spatial_gradient_y zeroT) (spatial_gradient_y zeroT)).data b c i j = 0 := by
    intro b c i j
    rw [tmul_data, hdy, zero_mul]
  have hxy : ∀ b c i j,
      (tmul (spatial_gradient_x zeroT) (spatial_gradient_y zeroT)).data b c i j = 0 := by
    intro b c i j
    rw [tmul_data, hdx, zero_mul]
  have hbxx : ∀ b c i j,
      (gaussian_blur w (tmul (spatial_gradient_x zeroT) (spatial_gradient_x zeroT))).data b c i j = 0 :=
    fun b c i j => conv3x3_data_zero _ _ hxx b c i j
  have hbyy : ∀ b c i j,
      (gaussian_blur w (tmul (spatial_gradient_y zeroT) (spatial_gradient_y zeroT))).data b c i j = 0 :=
    fun b c i j => conv3x3_data_zero _ _ hyy b c i j
  have hbxy : ∀ b c i j,
      (gaussian_blur w (tmul (spatial_gradient_x zeroT) (spatial_gradient_y zeroT))).data b c i j = 0 :=
    fun b c i j => conv3x3_data_zero _ _ hxy b c i j
  simp only [harrisRawScores, tsub_data, tsmul_data, tmul_data, tadd_data]
  rw [hbxx, hbyy, hbxy]
  ring

/-- Claim C1: for every 4D input and every scalar `k`, the Harris score
before thresholding equals, pointwise, `det - k * trace^2`, where
`det = Sxx * Syy - Sxy^2` and `trace = Sxx + Syy`, and `Sxx, Syy, Sxy` are
the Gaussian-blurred elementwise products `dx*dx`, `dy*dy`, `dx*dy` of the
per-channel spatial gradients of the input. -/
theorem harris_score_formula (w : ℤ → ℚ) (k : ℚ) (x : Tensor4) (b c i j : ℕ) :
    (harrisRawScores w k x).data b c i j =
      (gaussian_blur w (tmul (spatial_gradient_x x) (spatial_gradient_x x))).data b c i j *
          (gaussian_blur w (tmul (spatial_gradient_y x) (spatial_gradient_y x))).data b c i j -
        (gaussian_blur w (tmul (spatial_gradient_x x) (spatial_gradient_y x))).data b c i j ^ 2 -
        k * ((gaussian_blur w (tmul (spatial_gradient_x x) (spatial_gradient_x x))).data b c i j +
          (gaussian_blur w (tmul (spatial_gradient_y x) (spatial_gradient_y x))).data b c i j) ^ 2 := by
  simp only [harrisRawScores, tmul, tsub, tadd, tsmul]
  ring

/-- Claim C2: for every 4D input (with the odd window sizes for which the
elementwise comparison of the suppressor is defined), the suppressor output
has the shape of its input, every nonzero output value equals the input
value at the same position, the output is 0 wherever the input is strictly
below its local window maximum, and every pixel tied with its window
maximum is kept unchanged. -/
theorem nms_mask_spec (ky kx : ℕ) (hky : ky % 2 = 1) (hkx : kx % 2 = 1)
    (x : Tensor4) :
    ((NonMaximaSuppression2d_forward ky kx x).B = x.B ∧
      (NonMaximaSuppression2d_forward ky kx x).C = x.C ∧
      (NonMaximaSuppression2d_forward ky kx x).H = x.H ∧
      (NonMaximaSuppression2d_forward ky kx x).W = x.W) ∧
    (∀ b c i j, (NonMaximaSuppression2d_forward ky kx x).data b c i j ≠ 0 →
      (NonMaximaSuppression2d_forward ky kx x).data b c i j = x.data b c i j) ∧
    (∀ b c i j, x.data b c i j <
        windowMax x b c ((i : ℤ) - ((ky - 1) / 2 : ℕ)) ((j : ℤ) - ((kx - 1) / 2 : ℕ)) ky kx →
      (NonMaximaSuppression2d_forward ky kx x).data b c i j = 0) ∧
    (∀ b c i j, x.data b c i j =
        windowMax x b c ((i : ℤ) - ((ky - 1) / 2 : ℕ)) ((j : ℤ) - ((kx - 1) / 2 : ℕ)) ky kx →
      (NonMaximaSuppression2d_forward ky kx x).data b c i j = x.data b c i j) := by
  refine ⟨⟨rfl, rfl, rfl, rfl⟩, ?_, ?_, ?_⟩
  · intro b c i j hne
    rw [nms_data] at hne ⊢
    by_cases h : x.data b c i j =
        windowMax x b c ((i : ℤ) - ((ky - 1) / 2 : ℕ)) ((j : ℤ) - ((kx - 1) / 2 : ℕ)) ky kx
    · rw [if_pos h]
    · rw [if_neg h] at hne; exact absurd rfl hne
  · intro b c i j hlt
    rw [nms_data, if_neg (ne_of_lt hlt)]
  · intro b c i j heq
    rw [nms_data, if_pos heq]

/-- Witness for C2 at a flat maximal plateau: both tied cells of the
constant `1x1x1x2` map are kept with their original value. -/
theorem nms_mask_spec_witness :
    (NonMaximaSuppression2d_forward 3 3 plateau2).data 0 0 0 0 = plateau2.data 0 0 0 0 ∧
      (NonMaximaSuppression2d_forward 3 3 plateau2).data 0 0 0 1 = plateau2.data 0 0 0 1 :=
  ⟨(nms_mask_spec 3 3 (by decide) (by decide) plateau2).2.2.2 0 0 0 0 (by decide),
    (nms_mask_spec 3 3 (by decide) (by decide) plateau2).2.2.2 0 0 0 1 (by decide)⟩

/-- Claim C5: the scorer clamps every raw score to the floor `1e-6`: the
clamped map is everywhere at least `1e-6`, values below the floor are
raised to exactly `1e-6`, and values at or above the floor are unchanged. -/
theorem harris_clamp_floor (w : ℤ → ℚ) (k : ℚ) (x : Tensor4) (b c i j : ℕ) :
    (1 / 1000000 : ℚ) ≤ (clampedScores w k x).data b c i j ∧
    ((harrisRawScores w k x).data b c i j < 1 / 1000000 →
      (clampedScores w k x).data b c i j = 1 / 1000000) ∧
    (1 / 1000000 ≤ (harrisRawScores w k x).data b c i j →
      (clampedScores w k x).data b c i j = (harrisRawScores w k x).data b c i j) := by
  refine ⟨le_max_right _ _, ?_, ?_⟩
  · intro hlt
    exact max_eq_right (le_of_lt hlt)
  · intro hle
    exact max_eq_left hle

/-- Witness for C5 at the all-zero image: the raw score is 0, strictly
below the floor, and the clamped score is exactly `1e-6`. -/
theorem harris_clamp_floor_witness :
    (1 / 1000000 : ℚ) ≤ (clampedScores wConst 1 zeroT).data 0 0 0 0 ∧
      (clampedScores wConst 1 zeroT).data 0 0 0 0 = 1 / 1000000 :=
  ⟨(harris_clamp_floor wConst 1 zeroT 0 0 0 0).1,
    (harris_clamp_floor wConst 1 zeroT 0 0 0 0).2.1
      (by rw [harrisRawScores_data_zeroT]; norm_num)⟩

/-- Claim C7: for every valid (nonempty) 4D input, the output of the full
pipeline `corner_harris` has exactly the shape of the input. -/
theorem corner_harris_shape (w : ℤ → ℚ) (x : Tensor4) (k : ℚ)
    (hH : 1 ≤ x.H) (hW : 1 ≤ x.W) :
    (corner_harris w x k).B = x.B ∧ (corner_harris w x k).C = x.C ∧
      (corner_harris w x k).H = x.H ∧ (corner_harris w x k).W = x.W := by
  refine ⟨?_, ?_, ?_, ?_⟩
  · show (CornerHarris_forward w k x).B = x.B
    rw [CornerHarris_forward_B, harrisSuppressed_B]
  · show (CornerHarris_forward w k x).C = x.C
    rw [CornerHarris_forward_C, harrisSuppressed_C]
  · show (CornerHarris_forward w k x).H = x.H
    rw [CornerHarris_forward_H, harrisSuppressed_H]
  · show (CornerHarris_forward w k x).W = x.W
    rw [CornerHarris_forward_W, harrisSuppressed_W]

/-- Witness for C7 on a `2x3x4x5` input. -/
theorem corner_harris_shape_witness :
    (corner_harris wConst shapeT 1).B = 2 ∧ (corner_harris wConst shapeT 1).C = 3 ∧
      (corner_harris wConst shapeT 1).H = 4 ∧ (corner_harris wConst shapeT 1).W = 5 :=
  corner_harris_shape wConst shapeT 1 (by decide) (by decide)

/-- Claim C8: for every pair of positive window sizes, odd or even, the
kernel-size assertions accept the argument and the per-axis padding is the
floor division `(size - 1) // 2`. -/
theorem padding_floor_formula (ky kx : ℕ) (hky : 0 < ky) (hkx : 0 < kx) :
    compute_zero_padding2d_checked (PyKernelArg.tuple [(ky : ℤ), (kx : ℤ)]) =
      Except.ok ((((ky - 1) / 2 : ℕ) : ℤ), (((kx - 1) / 2 : ℕ) : ℤ)) := by
  have e1 : ((ky : ℤ) - 1) = ((ky - 1 : ℕ) : ℤ) := by omega
  have e2 : ((kx : ℤ) - 1) = ((kx - 1 : ℕ) : ℤ) := by omega
  have h1 : Int.fdiv ((ky : ℤ) - 1) 2 = (((ky - 1) / 2 : ℕ) : ℤ) := by
    rw [e1]
    exact (Int.ofNat_fdiv (ky - 1) 2).symm
  have h2 : Int.fdiv ((kx : ℤ) - 1) 2 = (((kx - 1) / 2 : ℕ) : ℤ) := by
    rw [e2]
    exact (Int.ofNat_fdiv (kx - 1) 2).symm
  show Except.ok (Int.fdiv ((ky : ℤ) - 1) 2, Int.fdiv ((kx : ℤ) - 1) 2) = _
  rw [h1, h2]

/-- Witness for C8 at the even window sizes `(4, 2)`: accepted, with the
asymmetric paddings `1` and `0`. -/
theorem padding_floor_formula_witness :
    compute_zero_padding2d_checked (PyKernelArg.tuple [((4 : ℕ) : ℤ), ((2 : ℕ) : ℤ)]) =
      Except.ok ((((4 - 1) / 2 : ℕ) : ℤ), (((2 - 1) / 2 : ℕ) : ℤ)) :=
  padding_floor_formula 4 2 (by decide) (by decide)

/-- Counterexample for C3: on the `1x1x1x2` input `[-5, -3]` with window
`(3, 3)`, suppression keeps `-3` but zeroes `-5`; the zero created next to
the kept `-3` exceeds it, so a second suppression pass removes it as well,
and the suppressor is not idempotent on this input. -/
theorem nms_idempotence_counterexample :
    ¬ EqOn4 (non_maxima_suppression2d (non_maxima_suppression2d negPair (3, 3)) (3, 3))
      (non_maxima_suppression2d negPair (3, 3)) := by
  decide

/-- Claim C3 (amended): non-maxima suppression is idempotent on every 4D
input whose in-bounds values are all nonnegative (in particular on the
clamped score maps the pipeline feeds it), for every odd window size;
on inputs with negative values a second pass can remove kept pixels. -/
theorem nms_idempotent_nonneg (ky kx : ℕ) (hky : ky % 2 = 1) (hkx : kx % 2 = 1)
    (x : Tensor4)
    (hpos : ∀ b < x.B, ∀ c < x.C, ∀ i < x.H, ∀ j < x.W, 0 ≤ x.data b c i j) :
    EqOn4 (non_maxima_suppression2d (non_maxima_suppression2d x (ky, kx)) (ky, kx))
      (non_maxima_suppression2d x (ky, kx)) := by
  show EqOn4
    (NonMaximaSuppression2d_forward ky kx (NonMaximaSuppression2d_forward ky kx x))
    (NonMaximaSuppression2d_forward ky kx x)
  refine ⟨rfl, rfl, rfl, rfl, ?_⟩
  intro b hb c hc i hi j hj
  simp only [nms_B] at hb
  simp only [nms_C] at hc
  simp only [nms_H] at hi
  simp only [nms_W] at hj
  rw [nms_data ky kx (NonMaximaSuppression2d_forward ky kx x) b c i j]
  by_cases hk : x.data b c i j =
      windowMax x b c ((i : ℤ) - ((ky - 1) / 2 : ℕ)) ((j : ℤ) - ((kx - 1) / 2 : ℕ)) ky kx
  · have hyij : (NonMaximaSuppression2d_forward ky kx x).data b c i j = x.data b c i j := by
      rw [nms_data, if_pos hk]
    have hle : ∀ p ∈ windowIdx x.H x.W ((i : ℤ) - ((ky - 1) / 2 : ℕ))
        ((j : ℤ) - ((kx - 1) / 2 : ℕ)) ky kx,
        (NonMaximaSuppression2d_forward ky kx x).data b c p.1 p.2 ≤ x.data b c p.1 p.2 := by
      intro p hp
      obtain ⟨h1, h2, _⟩ := mem_windowIdx.mp hp
      rw [nms_data]
      split
      · exact le_refl _
      · exact hpos b hb c hc p.1 h1 p.2 h2
    have hmono : windowMax (NonMaximaSuppression2d_forward ky kx x) b c
        ((i : ℤ) - ((ky - 1) / 2 : ℕ)) ((j : ℤ) - ((kx - 1) / 2 : ℕ)) ky kx ≤
          windowMax x b c ((i : ℤ) - ((ky - 1) / 2 : ℕ)) ((j : ℤ) - ((kx - 1) / 2 : ℕ)) ky kx :=
      windowMax_mono x (NonMaximaSuppression2d_forward ky kx x)
        (nms_H ky kx x) (nms_W ky kx x) b c _ _ ky kx hle
    have hselfy : ((i, j) : ℕ × ℕ) ∈
        windowIdx (NonMaximaSuppression2d_forward ky kx x).H
          (NonMaximaSuppression2d_forward ky kx x).W
          ((i : ℤ) - ((ky - 1) / 2 : ℕ)) ((j : ℤ) - ((kx - 1) / 2 : ℕ)) ky kx := by
      rw [nms_H, nms_W]
      exact self_mem_windowIdx hky hkx hi hj
    have hge : (NonMaximaSuppression2d_forward ky kx x).data b c i j ≤
        windowMax (NonMaximaSuppression2d_forward ky kx x) b c
          ((i : ℤ) - ((ky - 1) / 2 : ℕ)) ((j : ℤ) - ((kx - 1) / 2 : ℕ)) ky kx :=
      le_windowMax _ b c _ _ ky kx (i, j) hselfy
    have hub : windowMax (NonMaximaSuppression2d_forward ky kx x) b c
        ((i : ℤ) - ((ky - 1) / 2 : ℕ)) ((j : ℤ) - ((kx - 1) / 2 : ℕ)) ky kx ≤
          (NonMaximaSuppression2d_forward ky kx x).data b c i j := by
      rw [hyij, hk]
      exact hmono
    rw [if_pos (le_antisymm hge hub)]
  · have hyij : (NonMaximaSuppression2d_forward ky kx x).data b c i j = 0 := by
      rw [nms_data, if_neg hk]
    rw [hyij]
    split
    · rfl
    · rfl

/-- Witness for C3 (amended) on a `1x1x2x2` input with positive values. -/
theorem nms_idempotent_nonneg_witness :
    EqOn4 (non_maxima_suppression2d (non_maxima_suppression2d posQuad (3, 3)) (3, 3))
      (non_maxima_suppression2d posQuad (3, 3)) :=
  nms_idempotent_nonneg 3 3 (by decide) (by decide) posQuad (by decide)

/-- Counterexample for C9: a `1x1x1x1` input holding `-1`.  Its only pixel
is a boundary pixel and the maximum of its in-bounds window; under the
claimed zero-padding policy its local maximum would be `0 > -1` and the
pixel would be suppressed to `0`, but the code keeps it at `-1`, because
`nn.MaxPool2d` ignores padded cells rather than comparing against `0`. -/
theorem nms_zero_padding_counterexample :
    negT.data 0 0 0 0 < 0 ∧
      (NonMaximaSuppression2d_forward 3 3 negT).data 0 0 0 0 ≠ 0 := by
  decide

/-- Claim C9 (amended): at boundary pixels the suppressor's window maximum
is taken over the in-bounds window cells only (padding is ignored, as if
padded with negative infinity), so a pixel — boundary or not — whose value
is at least every in-bounds value of its window is kept with its original
value, even when that value is negative. -/
theorem nms_ignore_padding_boundary (ky kx : ℕ) (hky : ky % 2 = 1) (hkx : kx % 2 = 1)
    (x : Tensor4) (b c i j : ℕ) (hi : i < x.H) (hj : j < x.W)
    (hmax : ∀ p ∈ windowIdx x.H x.W ((i : ℤ) - ((ky - 1) / 2 : ℕ))
        ((j : ℤ) - ((kx - 1) / 2 : ℕ)) ky kx,
      x.data b c p.1 p.2 ≤ x.data b c i j) :
    (NonMaximaSuppression2d_forward ky kx x).data b c i j = x.data b c i j := by
  have hself : ((i, j) : ℕ × ℕ) ∈ windowIdx x.H x.W ((i : ℤ) - ((ky - 1) / 2 : ℕ))
      ((j : ℤ) - ((kx - 1) / 2 : ℕ)) ky kx :=
    self_mem_windowIdx hky hkx hi hj
  have hub : windowMax x b c ((i : ℤ) - ((ky - 1) / 2 : ℕ))
      ((j : ℤ) - ((kx - 1) / 2 : ℕ)) ky kx ≤ x.data b c i j :=
    windowMax_le x b c _ _ ky kx _ (List.ne_nil_of_mem hself) hmax
  have hlb : x.data b c i j ≤ windowMax x b c ((i : ℤ) - ((ky - 1) / 2 : ℕ))
      ((j : ℤ) - ((kx - 1) / 2 : ℕ)) ky kx :=
    le_windowMax x b c _ _ ky kx (i, j) hself
  rw [nms_data, if_pos (le_antisymm hlb hub)]

/-- Witness for C9 (amended): the negative boundary pixel of `negT` is kept
at its original value `-1`. -/
theorem nms_ignore_padding_boundary_witness :
    (NonMaximaSuppression2d_forward 3 3 negT).data 0 0 0 0 = negT.data 0 0 0 0 :=
  nms_ignore_padding_boundary 3 3 (by decide) (by decide) negT 0 0 0 0
    (by decide) (by decide) (by decide)

/-- Claim C4: the pipeline divides the suppressed map, per `[b, c]` slice,
by the global spatial maximum of that same suppressed slice; for every
in-bounds position the final value is `0` or lies in `(0, 1]`, it is
exactly `1` wherever the suppressed value ties the slice maximum, `0`
wherever suppression zeroed the score, and the pre-normalization slice
maximum is strictly positive (at least the clamp floor), so the
zero-maximum division branch is unreachable inside the pipeline. -/
theorem harris_normalization_spec (w : ℤ → ℚ) (k : ℚ) (x : Tensor4) (b c i j : ℕ)
    (hi : i < x.H) (hj : j < x.W) :
    (CornerHarris_forward w k x).data b c i j =
        (harrisSuppressed w k x).data b c i j / sliceMax (harrisSuppressed w k x) b c ∧
      0 < sliceMax (harrisSuppressed w k x) b c ∧
      ((CornerHarris_forward w k x).data b c i j = 0 ∨
        (0 < (CornerHarris_forward w k x).data b c i j ∧
          (CornerHarris_forward w k x).data b c i j ≤ 1)) ∧
      ((harrisSuppressed w k x).data b c i j = sliceMax (harrisSuppressed w k x) b c →
        (CornerHarris_forward w k x).data b c i j = 1) ∧
      ((harrisSuppressed w k x).data b c i j = 0 →
        (CornerHarris_forward w k x).data b c i j = 0) := by
  have hts : harrisSuppressed w k x =
      NonMaximaSuppression2d_forward 3 3 (clampedScores w k x) := rfl
  have htH : (clampedScores w k x).H = x.H := clampedScores_H w k x
  have htW : (clampedScores w k x).W = x.W := clampedScores_W w k x
  have hsH : (harrisSuppressed w k x).H = x.H := harrisSuppressed_H w k x
  have hsW : (harrisSuppressed w k x).W = x.W := harrisSuppressed_W w k x
  have hfloor : ∀ b' c' i' j', (1 / 1000000 : ℚ) ≤ (clampedScores w k x).data b' c' i' j' := by
    intro b' c' i' j'
    rw [clampedScores_data]
    exact le_max_right _ _
  have hHpos : 0 < (clampedScores w k x).H := by rw [htH]; omega
  have hWpos : 0 < (clampedScores w k x).W := by rw [htW]; omega
  obtain ⟨i2, j2, hi2, hj2, hM⟩ := sliceMax_attained (clampedScores w k x) b c hHpos hWpos
  have hself2 : ((i2, j2) : ℕ × ℕ) ∈ windowIdx (clampedScores w k x).H (clampedScores w k x).W
      ((i2 : ℤ) - ((3 - 1) / 2 : ℕ)) ((j2 : ℤ) - ((3 - 1) / 2 : ℕ)) 3 3 :=
    self_mem_windowIdx rfl rfl hi2 hj2
  have hub2 : windowMax (clampedScores w k x) b c
      ((i2 : ℤ) - ((3 - 1) / 2 : ℕ)) ((j2 : ℤ) - ((3 - 1) / 2 : ℕ)) 3 3 ≤
        sliceMax (clampedScores w k x) b c := by
    apply windowMax_le _ _ _ _ _ _ _ _ (List.ne_nil_of_mem hself2)
    intro p hp
    obtain ⟨h1, h2, _⟩ := mem_windowIdx.mp hp
    exact le_sliceMax _ b c p.1 p.2 h1 h2
  have hlb2 : (clampedScores w k x).data b c i2 j2 ≤ windowMax (clampedScores w k x) b c
      ((i2 : ℤ) - ((3 - 1) / 2 : ℕ)) ((j2 : ℤ) - ((3 - 1) / 2 : ℕ)) 3 3 :=
    le_windowMax _ b c _ _ 3 3 (i2, j2) hself2
  have hkeep : (harrisSuppressed w k x).data b c i2 j2 =
      (clampedScores w k x).data b c i2 j2 := by
    rw [hts, nms_data, if_pos (le_antisymm hlb2 (hub2.trans_eq hM))]
  have hi2x : i2 < (harrisSuppressed w k x).H := by rw [hsH, ← htH]; exact hi2
  have hj2x : j2 < (harrisSuppressed w k x).W := by rw [hsW, ← htW]; exact hj2
  have hsMax_ge : (1 / 1000000 : ℚ) ≤ sliceMax (harrisSuppressed w k x) b c := by
    calc (1 / 1000000 : ℚ) ≤ (clampedScores w k x).data b c i2 j2 := hfloor b c i2 j2
      _ = (harrisSuppressed w k x).data b c i2 j2 := hkeep.symm
      _ ≤ sliceMax (harrisSuppressed w k x) b c := le_sliceMax _ b c i2 j2 hi2x hj2x
  have hsMax_pos : 0 < sliceMax (harrisSuppressed w k x) b c :=
    lt_of_lt_of_le (by norm_num) hsMax_ge
  have hcase : (harrisSuppressed w k x).data b c i j = (clampedScores w k x).data b c i j ∨
      (harrisSuppressed w k x).data b c i j = 0 := by
    rw [hts, nms_data]
    split
    · exact Or.inl rfl
    · exact Or.inr rfl
  have hix : i < (harrisSuppressed w k x).H := by rw [hsH]; exact hi
  have hjx : j < (harrisSuppressed w k x).W := by rw [hsW]; exact hj
  have hs_le : (harrisSuppressed w k x).data b c i j ≤ sliceMax (harrisSuppressed w k x) b c :=
    le_sliceMax _ b c i j hix hjx
  refine ⟨CornerHarris_forward_data w k x b c i j, hsMax_pos, ?_, ?_, ?_⟩
  · rcases hcase with h | h
    · right
      constructor
      · rw [CornerHarris_forward_data]
        apply div_pos _ hsMax_pos
        rw [h]
        exact lt_of_lt_of_le (by norm_num) (hfloor b c i j)
      · rw [CornerHarris_forward_data]
        exact div_le_one_of_le₀ hs_le (le_of_lt hsMax_pos)
    · left
      rw [CornerHarris_forward_data, h, zero_div]
  · intro hmax
    rw [CornerHarris_forward_data, hmax]
    exact div_self (ne_of_gt hsMax_pos)
  · intro h0
    rw [CornerHarris_forward_data, h0, zero_div]

/-- Witness for C4 on a `1x1x1x1` all-zero image: the pre-normalization
slice maximum is strictly positive. -/
theorem harris_normalization_spec_witness :
    0 < sliceMax (harrisSuppressed wConst 1 zeroT) 0 0 :=
  (harris_normalization_spec wConst 1 zeroT 0 0 0 0 (by decide) (by decide)).2.1

/-- Claim C6: the scorer fails fast: a non-tensor argument yields the type
error, a tensor of rank other than 4 yields the shape error regardless of
its payload (so before any numeric work), and every rank-4 tensor is
processed without error. -/
theorem harris_fail_fast (w : ℤ → ℚ) (k : ℚ) :
    CornerHarris_forward_checked w k PyInput.nonTensor =
        Except.error HarrisError.invalidType ∧
      (∀ (shape : List ℕ) (d : ℕ → ℕ → ℕ → ℕ → ℚ), shape.length ≠ 4 →
        CornerHarris_forward_checked w k (PyInput.tensor shape d) =
          Except.error HarrisError.invalidShape) ∧
      (∀ (bb cc hh ww : ℕ) (d : ℕ → ℕ → ℕ → ℕ → ℚ),
        CornerHarris_forward_checked w k (PyInput.tensor [bb, cc, hh, ww] d) =
          Except.ok (CornerHarris_forward w k ⟨bb, cc, hh, ww, d⟩)) := by
  refine ⟨rfl, ?_, ?_⟩
  · intro shape d hlen
    rcases shape with _ | ⟨x1, _ | ⟨x2, _ | ⟨x3, _ | ⟨x4, _ | ⟨x5, u⟩⟩⟩⟩⟩
    · rfl
    · rfl
    · rfl
    · rfl
    · exact absurd rfl hlen
    · rfl
  · intro bb cc hh ww d
    rfl

/-- Witness for C6: a rank-2 tensor is rejected with the shape error. -/
theorem harris_fail_fast_witness :
    CornerHarris_forward_checked wConst 1 (PyInput.tensor [1, 1] (fun _ _ _ _ => 0)) =
      Except.error HarrisError.invalidShape :=
  (harris_fail_fast wConst 1).2.1 [1, 1] (fun _ _ _ _ => 0) (by decide)

/-- Claim C10: the standalone suppression entry point asserts its
preconditions before computing: a non-tuple kernel-size argument fails, a
tuple whose length is not 2 fails, a tensor of rank other than 4 fails, and
a rank-4 tensor with a length-2 tuple is processed without error. -/
theorem nms_checked_assertions :
    (∀ (shape : List ℕ) (d : ℕ → ℕ → ℕ → ℕ → ℚ),
      non_maxima_suppression2d_checked PyKernelArg.notATuple shape d =
        Except.error PyAssertError.assertionFailed) ∧
    (∀ (l : List ℤ) (shape : List ℕ) (d : ℕ → ℕ → ℕ → ℕ → ℚ), l.length ≠ 2 →
      non_maxima_suppression2d_checked (PyKernelArg.tuple l) shape d =
        Except.error PyAssertError.assertionFailed) ∧
    (∀ (ky kx : ℤ) (shape : List ℕ) (d : ℕ → ℕ → ℕ → ℕ → ℚ), shape.length ≠ 4 →
      non_maxima_suppression2d_checked (PyKernelArg.tuple [ky, kx]) shape d =
        Except.error PyAssertError.assertionFailed) ∧
    (∀ (ky kx : ℤ) (bb cc hh ww : ℕ) (d : ℕ → ℕ → ℕ → ℕ → ℚ),
      non_maxima_suppression2d_checked (PyKernelArg.tuple [ky, kx]) [bb, cc, hh, ww] d =
        Except.ok (NonMaximaSuppression2d_forward ky.toNat kx.toNat ⟨bb, cc, hh, ww, d⟩)) := by
  refine ⟨fun _ _ => rfl, ?_, ?_, fun _ _ _ _ _ _ _ => rfl⟩
  · intro l shape d hlen
    rcases l with _ | ⟨a1, _ | ⟨a2, _ | ⟨a3, u⟩⟩⟩
    · rfl
    · rfl
    · exact absurd rfl hlen
    · rfl
  · intro ky kx shape d hlen
    rcases shape with _ | ⟨x1, _ | ⟨x2, _ | ⟨x3, _ | ⟨x4, _ | ⟨x5, u⟩⟩⟩⟩⟩
    · rfl
    · rfl
    · rfl
    · rfl
    · exact absurd rfl hlen
    · rfl

/-- Witness for C10: a length-1 kernel tuple fails the construction
assertion even for a well-shaped input tensor. -/
theorem nms_checked_assertions_witness :
    non_maxima_suppression2d_checked (PyKernelArg.tuple [3]) [1, 1, 1, 1] (fun _ _ _ _ => 0) =
      Except.error PyAssertError.assertionFailed :=
  nms_checked_assertions.2.1 [3] [1, 1, 1, 1] (fun _ _ _ _ => 0) (by decide)
